import Mathlib

set_option maxHeartbeats 1000000

/-!
Verification development for the `hpat.ezre` regular-expression builder
(translated from `src/src/hpat/ezre/__init__.py`, version 1.2.0).

The embedding covers the three components of the module:
the `Cardinality` quantifier model (validation and rendering),
the `Label` display tree, and the `Ezre` expression tree with its
cached derived regex pattern strings.
-/

/-- Greediness sentinel of `Cardinality.step`.  The Python source uses the
builtin `min` for the greedy flag (which appends a trailing question mark)
and `max` for the non-greedy default. -/
inductive Step : Type where
  | min : Step
  | max : Step
deriving DecidableEq, Repr

/-- Raise sites of `Cardinality.__init__`, named after the Python exception
class raised there together with the condition reported in its message:
`valueErrorIntCoercion` is the `ValueError` raised by `int(...)` on a
non-numeric bound; `indexErrorStep` is the `IndexError` for a `step` that is
neither `min` nor `max`; `indexErrorRange` is the `IndexError` for a range
violating `0 <= start <= stop`; `valueErrorGreediness` is the `ValueError`
for `step is min` with `start == stop`. -/
inductive PyErr : Type where
  | valueErrorIntCoercion : PyErr
  | indexErrorStep : PyErr
  | indexErrorRange : PyErr
  | valueErrorGreediness : PyErr
deriving DecidableEq, Repr

/-- An argument supplied for the `start` or `stop` bound of a `Cardinality`:
Python `None`, an integer, or a non-numeric value (such as the string
`"hello"`) on which the coercion `int(...)` raises `ValueError`. -/
inductive BoundArg : Type where
  | none : BoundArg
  | int : Int → BoundArg
  | nonNumeric : BoundArg
deriving DecidableEq, Repr

/-- An argument supplied for the `step` of a `Cardinality`: Python `None`,
one of the two sentinels `min` and `max`, or any other value (such as the
integer `1`), which fails the membership test `step in (min, max)`. -/
inductive StepArg : Type where
  | none : StepArg
  | min : StepArg
  | max : StepArg
  | other : StepArg
deriving DecidableEq, Repr

/-- Coercion of the `start` argument, from the line
`start = 0 if start is None else int(start)`. -/
def coerceStart : BoundArg → Except PyErr Int
  | BoundArg.none => Except.ok 0
  | BoundArg.int n => Except.ok n
  | BoundArg.nonNumeric => Except.error PyErr.valueErrorIntCoercion

/-- Coercion of the `stop` argument, from the line
`stop = +oo if stop is None else int(stop)`.  The unbounded value `+oo`
is modelled by `Option.none`. -/
def coerceStop : BoundArg → Except PyErr (Option Int)
  | BoundArg.none => Except.ok Option.none
  | BoundArg.int n => Except.ok (some n)
  | BoundArg.nonNumeric => Except.error PyErr.valueErrorIntCoercion

/-- The comparison `start <= stop` where `stop` may be the unbounded
value `+oo` (modelled by `Option.none`), against which every integer
compares as smaller. -/
def leStop (a : Int) : Option Int → Bool
  | Option.none => true
  | some n => decide (a ≤ n)

/-- Rendering of a bound in an f-string, as Python's `str` does for the
integers reached here (the `+oo` case is unreachable in the branches that
use this helper, and Python would print `inf` there as well). -/
def stopToString : Option Int → String
  | some n => toString n
  | Option.none => "inf"

/-- The quantifier-rendering block of `Cardinality.__init__`: the nested
conditionals computing `str_` from the coerced and validated fields
(testing `stop == 1`, then `stop is +oo`, then the general bounded case,
exactly as the source does), followed by the non-greedy option appending a
question mark when `start != stop and step is min`. -/
def renderQuant (start : Int) (stop : Option Int) (step : Step) : String :=
  let base : String :=
    if start = 0 then
      if stop = some 1 then "?"
      else if stop = Option.none then "*"
      else "\x7b," ++ stopToString stop ++ "\x7d"
    else if start = 1 then
      if stop = some 1 then ""
      else if stop = Option.none then "+"
      else "\x7b" ++ toString start ++ "," ++ stopToString stop ++ "\x7d"
    else
      if some start = stop then "\x7b" ++ toString start ++ "\x7d"
      else if stop = Option.none then "\x7b" ++ toString start ++ ",\x7d"
      else "\x7b" ++ toString start ++ "," ++ stopToString stop ++ "\x7d"
  if some start ≠ stop ∧ step = Step.min then base ++ "?" else base

/-- A validated `Cardinality` value: the three coerced fields together with
the cached rendered quantifier string `_str` (here `str_`), computed once at
construction time. -/
structure Cardinality : Type where
  start : Int
  stop : Option Int
  step : Step
  str_ : String
deriving DecidableEq, Repr

/-- Assembly of a `Cardinality` from already-validated fields: the tail of
`Cardinality.__init__` storing the rendered string and the three fields. -/
def Cardinality.ofValidated (start : Int) (stop : Option Int) (step : Step) : Cardinality :=
  ⟨start, stop, step, renderQuant start stop step⟩

/-- `Cardinality.__init__` on an explicit `(start, stop, step)` argument
triple: coercion of the bounds, defaulting of the step, the three validity
checks in source order, then rendering. -/
def Cardinality.make (startA stopA : BoundArg) (stepA : StepArg) : Except PyErr Cardinality :=
  match coerceStart startA with
  | Except.error e => Except.error e
  | Except.ok start =>
    match coerceStop stopA with
    | Except.error e => Except.error e
    | Except.ok stop =>
      if stepA = StepArg.other then Except.error PyErr.indexErrorStep
      else
        let step : Step := if stepA = StepArg.min then Step.min else Step.max
        if ¬ (0 ≤ start ∧ leStop start stop = true) then Except.error PyErr.indexErrorRange
        else if some start = stop ∧ step = Step.min then Except.error PyErr.valueErrorGreediness
        else Except.ok (Cardinality.ofValidated start stop step)

/-- The one-positional-argument call `Cardinality(stop)`: Python's
`slice(stop)` has `start = None` and `step = None`. -/
def Cardinality.make1 (stopA : BoundArg) : Except PyErr Cardinality :=
  Cardinality.make BoundArg.none stopA StepArg.none

/-- The two-positional-argument call `Cardinality(start, stop)`:
Python's `slice(start, stop)` has `step = None`. -/
def Cardinality.make2 (startA stopA : BoundArg) : Except PyErr Cardinality :=
  Cardinality.make startA stopA StepArg.none

/-- `Cardinality.__eq__`: two values compare equal exactly when their
rendered strings are equal (the `isinstance` guard is enforced by typing
here). -/
def Cardinality.eqv (a b : Cardinality) : Bool :=
  a.str_ == b.str_

/-- Shortcut `CARDINALITY.One = Cardinality(1, 1)`; renders as the empty
string. -/
def CARDINALITY.One : Cardinality := Cardinality.ofValidated 1 (some 1) Step.max

/-- Shortcut `CARDINALITY.Many = Cardinality(1, None)`; renders `+`. -/
def CARDINALITY.Many : Cardinality := Cardinality.ofValidated 1 Option.none Step.max

/-- Shortcut `CARDINALITY.Any = Cardinality(None)`; renders `*`. -/
def CARDINALITY.Any : Cardinality := Cardinality.ofValidated 0 Option.none Step.max

/-- Shortcut `CARDINALITY.Maybe = Cardinality(1)` (one argument, hence
`stop = 1`); renders `?`. -/
def CARDINALITY.Maybe : Cardinality := Cardinality.ofValidated 0 (some 1) Step.max

instance : DecidableEq (Except PyErr Cardinality) := fun a b =>
  match a, b with
  | Except.ok x, Except.ok y =>
    if h : x = y then Decidable.isTrue (by rw [h]) else Decidable.isFalse (by simp [h])
  | Except.error x, Except.error y =>
    if h : x = y then Decidable.isTrue (by rw [h]) else Decidable.isFalse (by simp [h])
  | Except.ok _, Except.error _ => Decidable.isFalse (by simp)
  | Except.error _, Except.ok _ => Decidable.isFalse (by simp)

/-- The `Label` display tree: a leaf holds a raw display name (a Python
string, possibly wrapped in `Var` for quoteless repr), and the composite
variants mirror the nested classes `Label.And` and `Label.Or`, each holding
an ordered tuple of child labels. -/
inductive Label : Type where
  | leaf : String → Label
  | land : List Label → Label
  | lor : List Label → Label

/-- `Label.__add__`: wraps the two operands in a new `Label.And`. -/
def Label.addL (a b : Label) : Label := Label.land [a, b]

/-- `Label.__or__`: wraps the two operands in a new `Label.Or`. -/
def Label.orL (a b : Label) : Label := Label.lor [a, b]

/-- A `label` argument accepted by `Ezre.__init__` and `Ezre.as_`: either a
string (turned into a `Label` leaf via `Label(Var(label))`) or an
already-built `Label`; any other type raises `TypeError`, which the typed
embedding rules out. -/
inductive LabelArg : Type where
  | str : String → LabelArg
  | lbl : Label → LabelArg

/-- An `Ezre` node: the registry id assigned at construction time
(`self._id`), the display label, the expression payload (a raw string for a
leaf, or the ordered children of a nested `Ezre.And` or `Ezre.Or`), the
node's own cardinality, and the derived pattern string `self._re` cached at
construction. -/
inductive Ezre : Type where
  | strNode : Nat → Label → String → Cardinality → String → Ezre
  | andNode : Nat → Label → List Ezre → Cardinality → String → Ezre
  | orNode : Nat → Label → List Ezre → Cardinality → String → Ezre

/-- The expression payload of a node (`self._expr`): a raw string, an
`Ezre.And`, or an `Ezre.Or`. -/
inductive EExpr : Type where
  | str : String → EExpr
  | eand : List Ezre → EExpr
  | eor : List Ezre → EExpr

/-- Registry id of a node (`self._id`, `len(self._instances)` at creation). -/
def Ezre.id : Ezre → Nat
  | Ezre.strNode i _ _ _ _ => i
  | Ezre.andNode i _ _ _ _ => i
  | Ezre.orNode i _ _ _ _ => i

/-- Label of a node (`self._label`). -/
def Ezre.label : Ezre → Label
  | Ezre.strNode _ l _ _ _ => l
  | Ezre.andNode _ l _ _ _ => l
  | Ezre.orNode _ l _ _ _ => l

/-- Expression payload of a node (the `expr` property). -/
def Ezre.expr : Ezre → EExpr
  | Ezre.strNode _ _ s _ _ => EExpr.str s
  | Ezre.andNode _ _ items _ _ => EExpr.eand items
  | Ezre.orNode _ _ items _ _ => EExpr.eor items

/-- Cardinality of a node (the `cardinality` property). -/
def Ezre.cardinality : Ezre → Cardinality
  | Ezre.strNode _ _ _ c _ => c
  | Ezre.andNode _ _ _ c _ => c
  | Ezre.orNode _ _ _ c _ => c

/-- Derived pattern string of a node (the `re` property, cached `_re`). -/
def Ezre.re : Ezre → String
  | Ezre.strNode _ _ _ _ r => r
  | Ezre.andNode _ _ _ _ r => r
  | Ezre.orNode _ _ _ _ r => r

/-- The string `r"".join(map(Ezre.get_re, items))` computed by
`Ezre.And.__init__` from the cached patterns of the children. -/
def joinRe : List Ezre → String
  | [] => ""
  | e :: rest => e.re ++ joinRe rest

/-- The string `r"|".join(map(Ezre.get_re, items))` computed by
`Ezre.Or.__init__` from the cached patterns of the children. -/
def joinBar : List Ezre → String
  | [] => ""
  | [e] => e.re
  | e :: rest => e.re ++ "|" ++ joinBar rest

/-- The `re` property of an expression payload: the raw string itself for a
leaf, the concatenation of the children's cached patterns for `Ezre.And`,
and the bar-joined children's patterns for `Ezre.Or` — wrapped in
parentheses only when the `Or` has more than one child. -/
def EExpr.reOf : EExpr → String
  | EExpr.str s => s
  | EExpr.eand items => joinRe items
  | EExpr.eor items =>
    if items.length > 1 then "(" ++ joinBar items ++ ")" else joinBar items

/-- `Ezre.__init__`: the node receives the next registry id (the state `st`
models `len(self._instances)`), its label defaults to `#id` when absent (or
when the supplied string is empty, since Python's `label or ...` treats the
empty string as falsy), its cardinality defaults to `CARDINALITY.One`, and
the derived pattern `_re` is the payload's pattern followed by the
cardinality's rendered suffix.  Returns the node and the next state. -/
def Ezre.mkNode (st : Nat) (e : EExpr) (labelA : Option LabelArg) (cardA : Option Cardinality) : Ezre × Nat :=
  let lbl : Label :=
    match labelA with
    | Option.none => Label.leaf ("#" ++ toString st)
    | some (LabelArg.str s) =>
      if s = "" then Label.leaf ("#" ++ toString st) else Label.leaf s
    | some (LabelArg.lbl l) => l
  let c : Cardinality := cardA.getD CARDINALITY.One
  let re0 : String := EExpr.reOf e ++ c.str_
  let node : Ezre :=
    match e with
    | EExpr.str s => Ezre.strNode st lbl s c re0
    | EExpr.eand items => Ezre.andNode st lbl items c re0
    | EExpr.eor items => Ezre.orNode st lbl items c re0
  (node, st + 1)

/-- `Ezre.from_str`: build a leaf node from a string. -/
def Ezre.from_str (st : Nat) (s : String) (labelA : Option LabelArg) (cardA : Option Cardinality) : Ezre × Nat :=
  Ezre.mkNode st (EExpr.str s) labelA cardA

/-- The module-level singleton `EZRE.Begin = Ezre(r"^", label="^")`, the
first instance created at import time (registry id 0). -/
def EZRE.Begin : Ezre := (Ezre.mkNode 0 (EExpr.str "^") (some (LabelArg.str "^")) Option.none).1

/-- The module-level singleton `EZRE.End = Ezre(r"$", label="$")`, the
second instance created at import time (registry id 1). -/
def EZRE.End : Ezre := (Ezre.mkNode 1 (EExpr.str "$") (some (LabelArg.str "$")) Option.none).1

/-- `Ezre.__or__` on two nodes: a new node over `Ezre.Or(self, other)` with
label `self.label | other.label`. -/
def Ezre.orOp (st : Nat) (a b : Ezre) : Ezre × Nat :=
  Ezre.mkNode st (EExpr.eor [a, b]) (some (LabelArg.lbl (Label.orL a.label b.label))) Option.none

/-- `Ezre.__add__` on two nodes: a new node over `Ezre.And(self, other)`
with label `self.label + other.label`. -/
def Ezre.addOp (st : Nat) (a b : Ezre) : Ezre × Nat :=
  Ezre.mkNode st (EExpr.eand [a, b]) (some (LabelArg.lbl (Label.addL a.label b.label))) Option.none

/-- `Ezre.__add__` with `other is None`: the right-hand operand is replaced
by the well-known singleton `EZRE.End`. -/
def Ezre.addNone (st : Nat) (a : Ezre) : Ezre × Nat :=
  Ezre.addOp st a EZRE.End

/-- `Ezre.__radd__` with `other is None` (the call `None + self`): reduces
to `EZRE.Begin + self`. -/
def Ezre.raddNone (st : Nat) (a : Ezre) : Ezre × Nat :=
  Ezre.addOp st EZRE.Begin a

/-- `Ezre.as_`: replace the label field in place (a string argument is
wrapped as `Label(Var(label))`) and return the same node. -/
def Ezre.as_ (n : Ezre) (a : LabelArg) : Ezre :=
  let lbl : Label :=
    match a with
    | LabelArg.str s => Label.leaf s
    | LabelArg.lbl l => l
  match n with
  | Ezre.strNode i _ s c r => Ezre.strNode i lbl s c r
  | Ezre.andNode i _ items c r => Ezre.andNode i lbl items c r
  | Ezre.orNode i _ items c r => Ezre.orNode i lbl items c r

/-- A `cardinality` argument accepted by `Ezre.__getitem__`: a plain
integer (`node[2]`), a slice (`node[a:b:c]`, whose components are bound
arguments and a step argument), or an already-built `Cardinality`; any
other type raises `TypeError`, which the typed embedding rules out. -/
inductive CardArg : Type where
  | int : Int → CardArg
  | slc : BoundArg → BoundArg → StepArg → CardArg
  | card : Cardinality → CardArg

/-- The typing block of `Ezre.__getitem__`: an integer `k` becomes
`Cardinality(k, k)`, a slice becomes `Cardinality(start, stop, step)`, and
a `Cardinality` passes through unchanged. -/
def Ezre.argToCard : CardArg → Except PyErr Cardinality
  | CardArg.int k => Cardinality.make (BoundArg.int k) (BoundArg.int k) StepArg.none
  | CardArg.slc sa so stp => Cardinality.make sa so stp
  | CardArg.card c => Except.ok c

/-- `Ezre.__getitem__`: after the typing block, if the resulting
cardinality equals `CARDINALITY.One` the very same node is returned and no
new instance is created; otherwise a new node is built over the same
`expr`, with label `self.label + Label(Var(cardinality))` and the new
cardinality. -/
def Ezre.getitem (st : Nat) (n : Ezre) (a : CardArg) : Except PyErr (Ezre × Nat) :=
  match Ezre.argToCard a with
  | Except.error e => Except.error e
  | Except.ok c =>
    if c.eqv CARDINALITY.One then Except.ok (n, st)
    else Except.ok (Ezre.mkNode st n.expr
      (some (LabelArg.lbl (Label.addL n.label (Label.leaf c.str_)))) (some c))

/-- The characters escaped by Python's `re.escape` (the keys of its
`special_chars_map`): parentheses, brackets, braces, quantifier and
alternation symbols, anchors, backslash, dot, ampersand, tilde, hash, and
whitespace characters. -/
def pySpecialChars : List Char :=
  ['(', ')', '[', ']', '\x7b', '\x7d', '?', '*', '+', '-', '|', '^', '$',
   '\\', '.', '&', '~', '#', ' ', '\t', '\n', '\r', '\x0b', '\x0c']

/-- Python's `re.escape`: each special character is prefixed with a
backslash, every other character is kept as is. -/
def pyEscape (s : String) : String :=
  String.mk (s.data.flatMap fun c => if c ∈ pySpecialChars then ['\\', c] else [c])

/-- Code-point lexicographic comparison (non-strict) on the character
lists underlying two strings, as Python compares strings. -/
def lexLeB : List Char → List Char → Bool
  | [], _ => true
  | _ :: _, [] => false
  | a :: as, b :: bs =>
    if a.toNat < b.toNat then true
    else if b.toNat < a.toNat then false
    else lexLeB as bs

/-- The total preorder induced by `Ezre.string_key` (`key = (-len(item),
item)`): an item comes before another when it is longer, or of equal
length and lexicographically smaller or equal. -/
def stringKeyLe (a b : String) : Bool :=
  decide (b.length < a.length) || (a.length == b.length && lexLeB a.data b.data)

/-- Insertion of a string into a list kept in `stringKeyLe` order (used to
model Python's stable `sorted`, whose result on pairwise-distinct keys is
the unique ordered permutation). -/
def insertSorted (s : String) : List String → List String
  | [] => [s]
  | t :: rest => if stringKeyLe s t then s :: t :: rest else t :: insertSorted s rest

/-- Sorting by `Ezre.string_key`: the result of Python's
`sorted(·, key=Ezre.string_key)` on a list of pairwise-distinct strings. -/
def sortStrings : List String → List String
  | [] => []
  | s :: rest => insertSorted s (sortStrings rest)

/-- The list `sorted(set(map(re.escape, expr)), key=Ezre.string_key)`
computed by `Ezre.from_sequence`: escape every item, drop duplicates (set
semantics), sort by descending length then ascending lexicographic
order. -/
def sortedKeys (items : List String) : List String :=
  sortStrings ((items.map pyEscape).dedup)

/-- The mapping `map(cls.from_str, ...)` inside `Ezre.from_sequence`: build
one leaf node per string, threading the registry state left to right. -/
def Ezre.leavesOf (st : Nat) : List String → List Ezre × Nat
  | [] => ([], st)
  | s :: rest =>
    let e := (Ezre.from_str st s Option.none Option.none).1
    let (es, st1) := Ezre.leavesOf (st + 1) rest
    (e :: es, st1)

/-- `Ezre.from_sequence`: escape, deduplicate and sort the input strings,
build a leaf per surviving string, and wrap the leaves in a single
`Ezre.Or` node. -/
def Ezre.from_sequence (st : Nat) (items : List String) (labelA : Option LabelArg) (cardA : Option Cardinality) : Ezre × Nat :=
  let (leaves, st1) := Ezre.leavesOf st (sortedKeys items)
  Ezre.mkNode st1 (EExpr.eor leaves) labelA cardA

/-- A leaf rendering `A` (registry id 2, the first id free after the two
module-level anchors). -/
def leafA : Ezre := (Ezre.from_str 2 "A" (some (LabelArg.str "A")) Option.none).1

/-- A leaf rendering `B` (registry id 3). -/
def leafB : Ezre := (Ezre.from_str 3 "B" (some (LabelArg.str "B")) Option.none).1

/-- A leaf rendering `C` (registry id 4). -/
def leafC : Ezre := (Ezre.from_str 4 "C" (some (LabelArg.str "C")) Option.none).1

/-- The optional non-greedy marker of a rendered quantifier, as the claim
states it: a trailing question mark exactly when the cardinality has
distinct bounds and the greedy sentinel `min`. -/
def greedyTail (c : Cardinality) : String :=
  if some c.start ≠ c.stop ∧ c.step = Step.min then "?" else ""

/-- The node `leafA[2]` — the result of re-cardinalizing `leafA` with
`Cardinality(2, 2)` at registry id 5, spelled as the else-branch of
`Ezre.__getitem__` builds it. -/
def leafA2 : Ezre :=
  (Ezre.mkNode 5 leafA.expr
    (some (LabelArg.lbl (Label.addL leafA.label
      (Label.leaf (Cardinality.ofValidated 2 (some 2) Step.max).str_))))
    (some (Cardinality.ofValidated 2 (some 2) Step.max))).1

theorem CARDINALITY.One_make : Cardinality.make2 (BoundArg.int 1) (BoundArg.int 1) = Except.ok CARDINALITY.One := by decide

theorem CARDINALITY.Many_make : Cardinality.make2 (BoundArg.int 1) BoundArg.none = Except.ok CARDINALITY.Many := by decide

theorem CARDINALITY.Any_make : Cardinality.make1 BoundArg.none = Except.ok CARDINALITY.Any := by decide

theorem CARDINALITY.Maybe_make : Cardinality.make1 (BoundArg.int 1) = Except.ok CARDINALITY.Maybe := by decide

theorem Ezre.mkNode_fst_id (st : Nat) (e : EExpr) (l : Option LabelArg) (c : Option Cardinality) : (Ezre.mkNode st e l c).1.id = st := by
  cases e <;> rfl

theorem Ezre.mkNode_fst_expr (st : Nat) (e : EExpr) (l : Option LabelArg) (c : Option Cardinality) : (Ezre.mkNode st e l c).1.expr = e := by
  cases e <;> rfl

theorem Ezre.mkNode_fst_cardinality (st : Nat) (e : EExpr) (l : Option LabelArg) (c : Option Cardinality) : (Ezre.mkNode st e l c).1.cardinality = c.getD CARDINALITY.One := by
  cases e <;> rfl

theorem Ezre.mkNode_fst_re (st : Nat) (e : EExpr) (l : Option LabelArg) (c : Option Cardinality) : (Ezre.mkNode st e l c).1.re = EExpr.reOf e ++ (c.getD CARDINALITY.One).str_ := by
  cases e <;> rfl

theorem Ezre.mkNode_snd (st : Nat) (e : EExpr) (l : Option LabelArg) (c : Option Cardinality) : (Ezre.mkNode st e l c).2 = st + 1 := by
  cases e <;> rfl

theorem CARDINALITY.One_str : CARDINALITY.One.str_ = "" := by decide

theorem Cardinality.make_ok_elim (sa so : BoundArg) (sta : StepArg) (c : Cardinality)
    (h : Cardinality.make sa so sta = Except.ok c) :
    0 ≤ c.start ∧ leStop c.start c.stop = true ∧
    ¬(some c.start = c.stop ∧ c.step = Step.min) ∧
    c.str_ = renderQuant c.start c.stop c.step := by
  simp only [Cardinality.make] at h
  split at h
  · exact absurd h (by simp)
  · split at h
    · exact absurd h (by simp)
    · split at h
      · exact absurd h (by simp)
      · split at h
        · exact absurd h (by simp)
        · split at h
          · split at h
            · exact absurd h (by simp)
            · rename_i hrange hmin hgreedy
              rw [Except.ok.injEq] at h
              subst h
              refine ⟨?_, ?_, ?_, rfl⟩ <;>
                simp only [Cardinality.ofValidated] at hrange hgreedy ⊢ <;> tauto
          · split at h
            · exact absurd h (by simp)
            · rename_i hrange hmin hgreedy
              rw [Except.ok.injEq] at h
              subst h
              refine ⟨?_, ?_, ?_, rfl⟩ <;>
                simp only [Cardinality.ofValidated] at hrange hgreedy ⊢ <;> simp_all

/-- C1: for every valid construction of a Cardinality (after defaulting an
absent start to 0, an absent stop to unbounded, and an absent step to the
non-greedy sentinel), the rendered quantifier string is exactly the one
given by the table: a question mark for (0,1); a star for (0,unbounded);
a braced ",n" for (0,n) with n>1; the empty string for (1,1); a plus for
(1,unbounded); a braced "1,n" for (1,n) with n>1; a braced "m" for (m,m)
with m>1; a braced "m," for (m,unbounded) with m>1; a braced "m,n" for
(m,n) with m>1 and m not equal to n; and when start differs from stop and
the step is the greedy sentinel min, a trailing question mark is appended
to that suffix. -/
theorem C1_quantifier_table (sa so : BoundArg) (sta : StepArg) (c : Cardinality)
    (h : Cardinality.make sa so sta = Except.ok c) :
    (((c.start = 0 ∧ c.stop = some 1) → c.str_ = "?" ++ greedyTail c) ∧
     ((c.start = 0 ∧ c.stop = Option.none) → c.str_ = "*" ++ greedyTail c) ∧
     (∀ n : Int, 1 < n → c.start = 0 → c.stop = some n →
        c.str_ = "\x7b," ++ toString n ++ "\x7d" ++ greedyTail c) ∧
     ((c.start = 1 ∧ c.stop = some 1) → c.str_ = "") ∧
     ((c.start = 1 ∧ c.stop = Option.none) → c.str_ = "+" ++ greedyTail c) ∧
     (∀ n : Int, 1 < n → c.start = 1 → c.stop = some n →
        c.str_ = "\x7b1," ++ toString n ++ "\x7d" ++ greedyTail c) ∧
     (∀ m : Int, 1 < m → c.start = m → c.stop = some m →
        c.str_ = "\x7b" ++ toString m ++ "\x7d") ∧
     (∀ m : Int, 1 < m → c.start = m → c.stop = Option.none →
        c.str_ = "\x7b" ++ toString m ++ ",\x7d" ++ greedyTail c) ∧
     (∀ m n : Int, 1 < m → m ≠ n → c.start = m → c.stop = some n →
        c.str_ = "\x7b" ++ toString m ++ "," ++ toString n ++ "\x7d" ++ greedyTail c)) := by
  obtain ⟨-, -, -, hstr⟩ := Cardinality.make_ok_elim sa so sta c h
  have h1s : toString (1 : Int) = "1" := rfl
  refine ⟨?_, ?_, ?_, ?_, ?_, ?_, ?_, ?_, ?_⟩
  · rintro ⟨h1, h2⟩
    cases hstep : c.step <;>
      simp_all [renderQuant, greedyTail, stopToString, String.append_empty]
  · rintro ⟨h1, h2⟩
    cases hstep : c.step <;>
      simp_all [renderQuant, greedyTail, stopToString, String.append_empty]
  · intro n hn h1 h2
    have hn1 : ¬(n = (1 : Int)) := by omega
    have h0n : ¬((0 : Int) = n) := by omega
    cases hstep : c.step <;>
      simp_all [renderQuant, greedyTail, stopToString, String.append_empty]
  · rintro ⟨h1, h2⟩
    cases hstep : c.step <;>
      simp_all [renderQuant, greedyTail, stopToString, String.append_empty]
  · rintro ⟨h1, h2⟩
    cases hstep : c.step <;>
      simp_all [renderQuant, greedyTail, stopToString, String.append_empty]
  · intro n hn h1 h2
    have hn1 : ¬(n = (1 : Int)) := by omega
    have h1n : ¬((1 : Int) = n) := by omega
    cases hstep : c.step <;>
      simp_all [renderQuant, greedyTail, stopToString, String.append_empty]
  · intro m hm h1 h2
    have hm0 : ¬(m = (0 : Int)) := by omega
    have hm1 : ¬(m = (1 : Int)) := by omega
    cases hstep : c.step <;>
      simp_all [renderQuant, greedyTail, stopToString, String.append_empty]
  · intro m hm h1 h2
    have hm0 : ¬(m = (0 : Int)) := by omega
    have hm1 : ¬(m = (1 : Int)) := by omega
    cases hstep : c.step <;>
      simp_all [renderQuant, greedyTail, stopToString, String.append_empty]
  · intro m n hm hmn h1 h2
    have hm0 : ¬(m = (0 : Int)) := by omega
    have hm1 : ¬(m = (1 : Int)) := by omega
    cases hstep : c.step <;>
      simp_all [renderQuant, greedyTail, stopToString, String.append_empty]

theorem C1_quantifier_table_witness :
    (Cardinality.ofValidated 1 (some 2) Step.min).str_ = "\x7b1,2\x7d?" := by
  have h := C1_quantifier_table (BoundArg.int 1) (BoundArg.int 2) StepArg.min
    (Cardinality.ofValidated 1 (some 2) Step.min) (by decide)
  have h6 := h.2.2.2.2.2.1 2 (by decide) (by decide) (by decide)
  rw [h6]
  decide

/-- C5: Cardinality construction fails exactly in these cases, each with
its designated error kind, and succeeds otherwise: a step error when the
step argument is neither the greedy nor the non-greedy sentinel; a range
error when the defaulted bounds violate 0 <= start <= stop, or — grouped
under the range kind by the spec, though Python raises it from `int(...)`
as a `ValueError` — when a supplied bound cannot be coerced to an integer;
a greediness error when start equals stop and the step requests greedy
(`min`).  Overlaps are resolved in source order: coercion, then step, then
range, then greediness. -/
theorem C5_error_taxonomy (sa so : BoundArg) (sta : StepArg) :
    ((sa = BoundArg.nonNumeric ∨ so = BoundArg.nonNumeric) →
       Cardinality.make sa so sta = Except.error PyErr.valueErrorIntCoercion) ∧
    (sa ≠ BoundArg.nonNumeric → so ≠ BoundArg.nonNumeric → sta = StepArg.other →
       Cardinality.make sa so sta = Except.error PyErr.indexErrorStep) ∧
    (∀ s0 : Int, ∀ t0 : Option Int,
       coerceStart sa = Except.ok s0 → coerceStop so = Except.ok t0 →
       sta ≠ StepArg.other → ¬(0 ≤ s0 ∧ leStop s0 t0 = true) →
       Cardinality.make sa so sta = Except.error PyErr.indexErrorRange) ∧
    (∀ s0 : Int, ∀ t0 : Option Int,
       coerceStart sa = Except.ok s0 → coerceStop so = Except.ok t0 →
       sta = StepArg.min → 0 ≤ s0 → leStop s0 t0 = true → some s0 = t0 →
       Cardinality.make sa so sta = Except.error PyErr.valueErrorGreediness) ∧
    (∀ s0 : Int, ∀ t0 : Option Int,
       coerceStart sa = Except.ok s0 → coerceStop so = Except.ok t0 →
       sta ≠ StepArg.other → 0 ≤ s0 → leStop s0 t0 = true →
       ¬(some s0 = t0 ∧ sta = StepArg.min) →
       ∃ c : Cardinality, Cardinality.make sa so sta = Except.ok c) := by
  refine ⟨?_, ?_, ?_, ?_, ?_⟩
  · rintro (h | h)
    · subst h; cases so <;> rfl
    · subst h; cases sa <;> rfl
  · intro h1 h2 h3
    subst h3
    cases sa <;> cases so <;>
      first
      | rfl
      | exact absurd rfl h1
      | exact absurd rfl h2
  · intro s0 t0 hc1 hc2 hother hrange
    simp only [Cardinality.make, hc1, hc2]
    rw [if_neg hother, if_pos hrange]
  · intro s0 t0 hc1 hc2 hmin hpos hle heq
    subst hmin
    simp only [Cardinality.make, hc1, hc2]
    rw [if_neg (by simp : ¬(StepArg.min = StepArg.other)),
      if_neg (not_not_intro ⟨hpos, hle⟩), if_pos ⟨heq, rfl⟩]
  · intro s0 t0 hc1 hc2 hother hpos hle hng
    cases sta
    · refine ⟨Cardinality.ofValidated s0 t0 Step.max, ?_⟩
      simp only [Cardinality.make, hc1, hc2]
      rw [if_neg (by simp), if_neg (not_not_intro ⟨hpos, hle⟩), if_neg (by simp_all)]
      rfl
    · refine ⟨Cardinality.ofValidated s0 t0 Step.min, ?_⟩
      simp only [Cardinality.make, hc1, hc2]
      rw [if_neg (by simp), if_neg (not_not_intro ⟨hpos, hle⟩), if_neg (by simp_all)]
      rfl
    · refine ⟨Cardinality.ofValidated s0 t0 Step.max, ?_⟩
      simp only [Cardinality.make, hc1, hc2]
      rw [if_neg (by simp), if_neg (not_not_intro ⟨hpos, hle⟩), if_neg (by simp_all)]
      rfl
    · exact absurd rfl hother

theorem C5_error_taxonomy_witness :
    Cardinality.make BoundArg.none BoundArg.none StepArg.other = Except.error PyErr.indexErrorStep ∧
    Cardinality.make (BoundArg.int 5) (BoundArg.int 3) StepArg.none = Except.error PyErr.indexErrorRange ∧
    Cardinality.make (BoundArg.int 5) (BoundArg.int 5) StepArg.min = Except.error PyErr.valueErrorGreediness ∧
    Cardinality.make BoundArg.none BoundArg.nonNumeric StepArg.none = Except.error PyErr.valueErrorIntCoercion := by
  refine ⟨?_, ?_, ?_, ?_⟩
  · exact (C5_error_taxonomy BoundArg.none BoundArg.none StepArg.other).2.1
      (by decide) (by decide) rfl
  · exact (C5_error_taxonomy (BoundArg.int 5) (BoundArg.int 3) StepArg.none).2.2.1
      5 (some 3) rfl rfl (by decide) (by decide)
  · exact (C5_error_taxonomy (BoundArg.int 5) (BoundArg.int 5) StepArg.min).2.2.2.1
      5 (some 5) rfl rfl rfl (by decide) (by decide) rfl
  · exact (C5_error_taxonomy BoundArg.none BoundArg.nonNumeric StepArg.none).1
      (Or.inr rfl)

/-- C6: for every two validly constructed Cardinality values, they compare
equal exactly when their rendered quantifier strings are equal, regardless
of the internal bounds; in particular `Cardinality(2)`, `Cardinality(0,2)`
and `Cardinality(None,2)` are all equal, and `Cardinality(2,2)` equals
`Cardinality(2,2,max)`. -/
theorem C6_equality_is_rendering (a1 a2 b1 b2 : BoundArg) (a3 b3 : StepArg)
    (c1 c2 : Cardinality)
    (_h1 : Cardinality.make a1 a2 a3 = Except.ok c1)
    (_h2 : Cardinality.make b1 b2 b3 = Except.ok c2) :
    (c1.eqv c2 = true ↔ c1.str_ = c2.str_) ∧
    (∃ d1 d2 d3 : Cardinality,
       Cardinality.make1 (BoundArg.int 2) = Except.ok d1 ∧
       Cardinality.make2 (BoundArg.int 0) (BoundArg.int 2) = Except.ok d2 ∧
       Cardinality.make2 BoundArg.none (BoundArg.int 2) = Except.ok d3 ∧
       d1.eqv d2 = true ∧ d2.eqv d3 = true ∧ d1.start = 0 ∧ d1.stop = some 2) ∧
    (∃ e1 e2 : Cardinality,
       Cardinality.make2 (BoundArg.int 2) (BoundArg.int 2) = Except.ok e1 ∧
       Cardinality.make (BoundArg.int 2) (BoundArg.int 2) StepArg.max = Except.ok e2 ∧
       e1.eqv e2 = true) := by
  refine ⟨?_, ?_, ?_⟩
  · simp [Cardinality.eqv]
  · exact ⟨Cardinality.ofValidated 0 (some 2) Step.max, Cardinality.ofValidated 0 (some 2) Step.max,
      Cardinality.ofValidated 0 (some 2) Step.max,
      by decide, by decide, by decide, by decide, by decide, by decide, by decide⟩
  · exact ⟨Cardinality.ofValidated 2 (some 2) Step.max, Cardinality.ofValidated 2 (some 2) Step.max,
      by decide, by decide, by decide⟩

theorem C6_equality_is_rendering_witness :
    (Cardinality.ofValidated 0 (some 2) Step.max).eqv (Cardinality.ofValidated 0 (some 2) Step.max) = true := by
  have h := C6_equality_is_rendering BoundArg.none (BoundArg.int 2) (BoundArg.int 0) (BoundArg.int 2)
    StepArg.none StepArg.none
    (Cardinality.ofValidated 0 (some 2) Step.max) (Cardinality.ofValidated 0 (some 2) Step.max)
    (by decide) (by decide)
  exact h.1.mpr rfl

/-- C3: for every two Ezre nodes, the alternation builds an Or node over
the pair whose derived pattern is an opening parenthesis, the first
operand's derived pattern, a bar, the second operand's derived pattern and
a closing parenthesis — the parentheses are always present at this
construction site — followed by the new node's cardinality suffix (the
default, which renders empty); consequently for leaf nodes rendering "A",
"B", "C" with trivial cardinality, (a+b)|c renders "(AB|C)" and a+(b|c)
renders "A(B|C)". -/
theorem C3_alternation_pattern (st : Nat) (a b : Ezre) :
    (Ezre.orOp st a b).1.expr = EExpr.eor [a, b] ∧
    (Ezre.orOp st a b).1.cardinality = CARDINALITY.One ∧
    (Ezre.orOp st a b).1.re
      = "(" ++ a.re ++ "|" ++ b.re ++ ")" ++ ((Ezre.orOp st a b).1.cardinality).str_ ∧
    (Ezre.orOp 6 (Ezre.addOp 5 leafA leafB).1 leafC).1.re = "(AB|C)" ∧
    (Ezre.addOp 6 leafA (Ezre.orOp 5 leafB leafC).1).1.re = "A(B|C)" := by
  refine ⟨Ezre.mkNode_fst_expr _ _ _ _, Ezre.mkNode_fst_cardinality _ _ _ _, ?_, by decide, by decide⟩
  rw [Ezre.orOp, Ezre.mkNode_fst_re, Ezre.mkNode_fst_cardinality]
  simp [EExpr.reOf, joinBar, String.append_assoc]

/-- C4: re-cardinalizing a node with a cardinality equal to the trivial
"exactly one" (given as an integer, a slice, or a Cardinality) returns the
very same node (same registry identity), leaving its label and structure
untouched; any other valid cardinality returns a new node, with identity
distinct from the original's (the fresh id `st` differs from every live
node's id), that wraps the original node's inner `expr` — not the node
itself — with the new Cardinality.  The original node, an immutable value
here as in the claim, is not modified. -/
theorem C4_recardinalize_identity (st : Nat) (n : Ezre) (a : CardArg) (c : Cardinality)
    (hc : Ezre.argToCard a = Except.ok c) (hid : n.id ≠ st) :
    (c.eqv CARDINALITY.One = true → Ezre.getitem st n a = Except.ok (n, st)) ∧
    (c.eqv CARDINALITY.One = false →
       ∃ m : Ezre, Ezre.getitem st n a = Except.ok (m, st + 1) ∧
         m.id = st ∧ m.id ≠ n.id ∧ m.expr = n.expr ∧ m.cardinality = c) := by
  constructor
  · intro htriv
    simp only [Ezre.getitem, hc]
    rw [if_pos htriv]
  · intro htriv
    refine ⟨(Ezre.mkNode st n.expr
      (some (LabelArg.lbl (Label.addL n.label (Label.leaf c.str_)))) (some c)).1, ?_, ?_, ?_, ?_, ?_⟩
    · simp only [Ezre.getitem, hc]
      rw [if_neg (by simp [htriv]), Except.ok.injEq]
      exact Prod.ext_iff.mpr ⟨rfl, Ezre.mkNode_snd _ _ _ _⟩
    · exact Ezre.mkNode_fst_id _ _ _ _
    · rw [Ezre.mkNode_fst_id]
      exact fun h => hid h.symm
    · exact Ezre.mkNode_fst_expr _ _ _ _
    · exact Ezre.mkNode_fst_cardinality _ _ _ _

theorem C4_recardinalize_identity_witness :
    (Ezre.getitem 5 leafA (CardArg.int 1) = Except.ok (leafA, 5)) ∧
    (∃ m : Ezre, Ezre.getitem 5 leafA (CardArg.int 2) = Except.ok (m, 6) ∧
       m.id = 5 ∧ m.id ≠ leafA.id ∧ m.expr = leafA.expr ∧
       m.cardinality = Cardinality.ofValidated 2 (some 2) Step.max) := by
  constructor
  · exact (C4_recardinalize_identity 5 leafA (CardArg.int 1)
      (Cardinality.ofValidated 1 (some 1) Step.max) (by decide) (by decide)).1 (by decide)
  · exact (C4_recardinalize_identity 5 leafA (CardArg.int 2)
      (Cardinality.ofValidated 2 (some 2) Step.max) (by decide) (by decide)).2 (by decide)

/-- C7 counterexample: the claim states that the two anchors, taken in the
order end-of-input then start-of-input, render `^` and `$` respectively —
that is, that concatenating a node rendering "A" with an absent right-hand
operand would append `^`, yielding "A^".  On the code, the end-of-input
singleton `EZRE.End` renders `$` and `a + None` renders "A$", not "A^". -/
theorem C7_counterexample_anchor_renderings :
    (Ezre.addNone 5 leafA).1.re = "A$" ∧ "A$" ≠ "A^" ∧
    EZRE.End.re = "$" ∧ "$" ≠ "^" ∧ EZRE.Begin.re = "^" := by
  refine ⟨by decide, by decide, by decide, by decide, by decide⟩

/-- C7 (amended): concatenating with an absent right-hand operand builds an
And node of the node followed by the end-of-input anchor singleton, and
concatenating with an absent left-hand operand builds an And node of the
start-of-input anchor singleton followed by the node; these two anchors are
process-wide singleton leaf nodes which (taken in that order, end-of-input
then start-of-input) render the dollar sign and the caret respectively. -/
theorem C7_amended_anchor_concat (st : Nat) (a : Ezre) :
    (Ezre.addNone st a).1.expr = EExpr.eand [a, EZRE.End] ∧
    (Ezre.raddNone st a).1.expr = EExpr.eand [EZRE.Begin, a] ∧
    (Ezre.addNone st a).1.re = a.re ++ "$" ∧
    (Ezre.raddNone st a).1.re = "^" ++ a.re ∧
    EZRE.End.re = "$" ∧ EZRE.Begin.re = "^" := by
  have hEnd : EZRE.End.re = "$" := by decide
  have hBegin : EZRE.Begin.re = "^" := by decide
  refine ⟨Ezre.mkNode_fst_expr _ _ _ _, Ezre.mkNode_fst_expr _ _ _ _, ?_, ?_, hEnd, hBegin⟩
  · rw [Ezre.addNone, Ezre.addOp, Ezre.mkNode_fst_re]
    simp [EExpr.reOf, joinRe, hEnd, String.append_empty, CARDINALITY.One_str]
  · rw [Ezre.raddNone, Ezre.addOp, Ezre.mkNode_fst_re]
    simp [EExpr.reOf, joinRe, hBegin, String.append_empty, CARDINALITY.One_str]

/-- C8: relabeling a node with a valid label argument returns the same node
(same registry identity — the code mutates the label field in place and
returns `self`) and replaces only the label field: the node's expr,
cardinality, and derived pattern string are unchanged, and — all values
being immutable in this embedding — no other node or field is modified. -/
theorem C8_relabel_frame (n : Ezre) (a : LabelArg) :
    (n.as_ a).id = n.id ∧ (n.as_ a).expr = n.expr ∧
    (n.as_ a).cardinality = n.cardinality ∧ (n.as_ a).re = n.re ∧
    (∀ s : String, a = LabelArg.str s → (n.as_ a).label = Label.leaf s) ∧
    (∀ l : Label, a = LabelArg.lbl l → (n.as_ a).label = l) := by
  cases n <;> cases a <;>
    simp [Ezre.as_, Ezre.id, Ezre.expr, Ezre.cardinality, Ezre.re, Ezre.label]

/-- C9: re-cardinalization replaces rather than composes cardinalities:
for every node and every two cardinalities both different from the trivial
"exactly one", applying the first and then the second yields the same
derived pattern as applying the second alone (the first suffix does not
appear in it), whereas re-applying the trivial "exactly one" to the once
re-cardinalized node returns that node itself, so the non-trivial
cardinality is retained in that case. -/
theorem C9_recardinalize_replaces (st st2 st3 st1 : Nat) (n m1 : Ezre) (c1 c2 : Cardinality)
    (h1 : c1.eqv CARDINALITY.One = false) (h2 : c2.eqv CARDINALITY.One = false)
    (hm1 : Ezre.getitem st n (CardArg.card c1) = Except.ok (m1, st1)) :
    (∀ (m2 : Ezre) (st2a : Nat) (m3 : Ezre) (st3a : Nat),
       Ezre.getitem st2 m1 (CardArg.card c2) = Except.ok (m2, st2a) →
       Ezre.getitem st3 n (CardArg.card c2) = Except.ok (m3, st3a) →
       m2.re = m3.re) ∧
    Ezre.getitem st2 m1 (CardArg.card CARDINALITY.One) = Except.ok (m1, st2) := by
  simp only [Ezre.getitem, Ezre.argToCard] at hm1
  rw [if_neg (by simp [h1]), Except.ok.injEq] at hm1
  have e1 : m1 = (Ezre.mkNode st n.expr
      (some (LabelArg.lbl (n.label.addL (Label.leaf c1.str_)))) (some c1)).1 := by
    rw [hm1]
  have hm1expr : m1.expr = n.expr := by
    rw [e1]
    exact Ezre.mkNode_fst_expr _ _ _ _
  constructor
  · intro m2 st2a m3 st3a hg2 hg3
    simp only [Ezre.getitem, Ezre.argToCard] at hg2 hg3
    rw [if_neg (by simp [h2]), Except.ok.injEq] at hg2 hg3
    have e2 : m2 = (Ezre.mkNode st2 m1.expr
        (some (LabelArg.lbl (m1.label.addL (Label.leaf c2.str_)))) (some c2)).1 := by
      rw [hg2]
    have e3 : m3 = (Ezre.mkNode st3 n.expr
        (some (LabelArg.lbl (n.label.addL (Label.leaf c2.str_)))) (some c2)).1 := by
      rw [hg3]
    rw [e2, e3, Ezre.mkNode_fst_re, Ezre.mkNode_fst_re, hm1expr]
  · simp only [Ezre.getitem, Ezre.argToCard]
    rw [if_pos (by decide)]

theorem C9_recardinalize_replaces_witness :
    (∃ m2 : Ezre, ∃ m3 : Ezre,
       Ezre.getitem 6 leafA2 (CardArg.card (Cardinality.ofValidated 3 (some 3) Step.max))
         = Except.ok (m2, 7) ∧
       Ezre.getitem 8 leafA (CardArg.card (Cardinality.ofValidated 3 (some 3) Step.max))
         = Except.ok (m3, 9) ∧ m2.re = m3.re) ∧
    Ezre.getitem 6 leafA2 (CardArg.card CARDINALITY.One) = Except.ok (leafA2, 6) := by
  have h := C9_recardinalize_replaces 5 6 8 6 leafA leafA2
    (Cardinality.ofValidated 2 (some 2) Step.max)
    (Cardinality.ofValidated 3 (some 3) Step.max)
    (by decide) (by decide) (by rfl)
  refine ⟨⟨(Ezre.mkNode 6 leafA2.expr
      (some (LabelArg.lbl (Label.addL leafA2.label
        (Label.leaf (Cardinality.ofValidated 3 (some 3) Step.max).str_))))
      (some (Cardinality.ofValidated 3 (some 3) Step.max))).1,
    (Ezre.mkNode 8 leafA.expr
      (some (LabelArg.lbl (Label.addL leafA.label
        (Label.leaf (Cardinality.ofValidated 3 (some 3) Step.max).str_))))
      (some (Cardinality.ofValidated 3 (some 3) Step.max))).1, ?_, ?_, ?_⟩, h.2⟩
  · rfl
  · rfl
  · exact h.1 _ 7 _ 9 (by rfl) (by rfl)

theorem lexLeB_total (as bs : List Char) : lexLeB as bs = true ∨ lexLeB bs as = true := by
  induction as generalizing bs with
  | nil => left; rfl
  | cons a as ih =>
    cases bs with
    | nil => right; rfl
    | cons b bs =>
      by_cases hab : a.toNat < b.toNat
      · left; simp [lexLeB, hab]
      · by_cases hba : b.toNat < a.toNat
        · right; simp [lexLeB, hba]
        · rcases ih bs with h | h
          · left; simp [lexLeB, hab, hba, h]
          · right; simp [lexLeB, hab, hba, h]

theorem lexLeB_trans (as bs cs : List Char) (h1 : lexLeB as bs = true)
    (h2 : lexLeB bs cs = true) : lexLeB as cs = true := by
  induction as generalizing bs cs with
  | nil => rfl
  | cons a as ih =>
    cases bs with
    | nil => simp [lexLeB] at h1
    | cons b bs =>
      cases cs with
      | nil => simp [lexLeB] at h2
      | cons c cs =>
        by_cases hab : a.toNat < b.toNat
        · by_cases hbc : b.toNat < c.toNat
          · have hac : a.toNat < c.toNat := by omega
            simp [lexLeB, hac]
          · by_cases hcb : c.toNat < b.toNat
            · simp [lexLeB, hbc, hcb] at h2
            · have hac : a.toNat < c.toNat := by omega
              simp [lexLeB, hac]
        · by_cases hba : b.toNat < a.toNat
          · simp [lexLeB, hab, hba] at h1
          · by_cases hbc : b.toNat < c.toNat
            · have hac : a.toNat < c.toNat := by omega
              simp [lexLeB, hac]
            · by_cases hcb : c.toNat < b.toNat
              · simp [lexLeB, hbc, hcb] at h2
              · have h1' : lexLeB as bs = true := by simpa [lexLeB, hab, hba] using h1
                have h2' : lexLeB bs cs = true := by simpa [lexLeB, hbc, hcb] using h2
                have hac1 : ¬ a.toNat < c.toNat := by omega
                have hac2 : ¬ c.toNat < a.toNat := by omega
                simp [lexLeB, hac1, hac2, ih bs cs h1' h2']

theorem stringKeyLe_total (a b : String) : stringKeyLe a b = true ∨ stringKeyLe b a = true := by
  simp only [stringKeyLe, Bool.or_eq_true, decide_eq_true_eq, Bool.and_eq_true, beq_iff_eq]
  by_cases h : a.length = b.length
  · rcases lexLeB_total a.data b.data with hl | hl
    · left; right; exact ⟨h, hl⟩
    · right; right; exact ⟨h.symm, hl⟩
  · rcases Nat.lt_or_ge b.length a.length with hlt | hge
    · left; left; exact hlt
    · right; left; omega

theorem stringKeyLe_trans (a b c : String) (h1 : stringKeyLe a b = true)
    (h2 : stringKeyLe b c = true) : stringKeyLe a c = true := by
  simp only [stringKeyLe, Bool.or_eq_true, decide_eq_true_eq, Bool.and_eq_true,
    beq_iff_eq] at h1 h2 ⊢
  rcases h1 with h1 | ⟨h1e, h1l⟩ <;> rcases h2 with h2 | ⟨h2e, h2l⟩
  · left; omega
  · left; omega
  · left; omega
  · right; exact ⟨by omega, lexLeB_trans _ _ _ h1l h2l⟩

theorem insertSorted_perm (s : String) (l : List String) :
    (insertSorted s l).Perm (s :: l) := by
  induction l with
  | nil => exact List.Perm.refl _
  | cons t rest ih =>
    simp only [insertSorted]
    split
    · exact List.Perm.refl _
    · exact (List.Perm.cons t ih).trans (List.Perm.swap s t rest)

theorem sortStrings_perm (l : List String) : (sortStrings l).Perm l := by
  induction l with
  | nil => exact List.Perm.refl _
  | cons s rest ih =>
    exact (insertSorted_perm s (sortStrings rest)).trans (List.Perm.cons s ih)

theorem pairwise_insertSorted (s : String) (l : List String)
    (h : l.Pairwise (fun a b => stringKeyLe a b = true)) :
    (insertSorted s l).Pairwise (fun a b => stringKeyLe a b = true) := by
  induction l with
  | nil => simp [insertSorted]
  | cons t rest ih =>
    rcases List.pairwise_cons.mp h with ⟨ht, hrest⟩
    simp only [insertSorted]
    split
    · rename_i hst
      refine List.Pairwise.cons ?_ (List.Pairwise.cons ht hrest)
      intro x hx
      rcases List.mem_cons.mp hx with rfl | hx
      · exact hst
      · exact stringKeyLe_trans _ _ _ hst (ht x hx)
    · rename_i hst
      refine List.Pairwise.cons ?_ (ih hrest)
      intro x hx
      have hx' := (insertSorted_perm s rest).mem_iff.mp hx
      rcases List.mem_cons.mp hx' with rfl | hx'
      · rcases stringKeyLe_total t x with h' | h'
        · exact h'
        · exact absurd h' hst
      · exact ht x hx'

theorem pairwise_sortStrings (l : List String) :
    (sortStrings l).Pairwise (fun a b => stringKeyLe a b = true) := by
  induction l with
  | nil => simp [sortStrings]
  | cons s rest ih => exact pairwise_insertSorted s _ ih

theorem sortedKeys_nodup (items : List String) : (sortedKeys items).Nodup :=
  (sortStrings_perm _).nodup_iff.mpr (List.nodup_dedup _)

theorem sortedKeys_mem (items : List String) (s : String) :
    s ∈ sortedKeys items ↔ s ∈ items.map pyEscape := by
  rw [sortedKeys, (sortStrings_perm _).mem_iff, List.mem_dedup]

theorem sortedKeys_pairwise (items : List String) :
    (sortedKeys items).Pairwise (fun a b => stringKeyLe a b = true ∧ a ≠ b) :=
  (pairwise_sortStrings _).and (sortedKeys_nodup items)

theorem leavesOf_map_re (L : List String) : ∀ st : Nat, ((Ezre.leavesOf st L).1.map Ezre.re) = L := by
  induction L with
  | nil => intro st; rfl
  | cons s rest ih =>
    intro st
    rcases hrec : Ezre.leavesOf (st + 1) rest with ⟨es, st1⟩
    have ihr := ih (st + 1)
    rw [hrec] at ihr
    simp only [Ezre.leavesOf, hrec]
    simp [Ezre.from_str, Ezre.mkNode_fst_re, EExpr.reOf, CARDINALITY.One_str,
      String.append_empty, ihr]

/-- C2: from_sequence escapes each input string for literal matching,
removes duplicates with set semantics, sorts the surviving escaped strings
primarily by descending length and secondarily by ascending lexicographic
order (the order `stringKeyLe` induced by `Ezre.string_key`), and combines
them into a single Or node; concretely `from_sequence(["c","a","ab"])` has
derived pattern "(ab|a|c)". -/
theorem C2_from_sequence_ordering (st : Nat) (items : List String) :
    ∃ leaves : List Ezre,
      (Ezre.from_sequence st items Option.none Option.none).1.expr = EExpr.eor leaves ∧
      leaves.map Ezre.re = sortedKeys items ∧
      (sortedKeys items).Nodup ∧
      (∀ s : String, s ∈ sortedKeys items ↔ s ∈ items.map pyEscape) ∧
      (sortedKeys items).Pairwise (fun a b => stringKeyLe a b = true ∧ a ≠ b) ∧
      (Ezre.from_sequence 2 ["c", "a", "ab"] Option.none Option.none).1.re = "(ab|a|c)" := by
  refine ⟨(Ezre.leavesOf st (sortedKeys items)).1, ?_, leavesOf_map_re _ st,
    sortedKeys_nodup items, sortedKeys_mem items, sortedKeys_pairwise items, by decide⟩
  rcases hrec : Ezre.leavesOf st (sortedKeys items) with ⟨lv, st1⟩
  simp only [Ezre.from_sequence, hrec]
  exact Ezre.mkNode_fst_expr _ _ _ _

/-- C10: when the escaped input strings of from_sequence deduplicate to
exactly one string s, the resulting node's derived pattern (under the
default cardinality) is exactly s with no surrounding parentheses; when
from_sequence is given an empty sequence, the derived pattern is the empty
string — the wrapping parentheses of an Or node are added only when it has
more than one child. -/
theorem C10_singleton_or_unparenthesized (st : Nat) (items : List String) (s : String)
    (h : (items.map pyEscape).dedup = [s]) :
    (Ezre.from_sequence st items Option.none Option.none).1.re = s ∧
    (Ezre.from_sequence st [] Option.none Option.none).1.re = "" := by
  constructor
  · have hs : sortedKeys items = [s] := by
      unfold sortedKeys
      rw [h]
      rfl
    simp only [Ezre.from_sequence, hs]
    simp [Ezre.leavesOf, Ezre.from_str, Ezre.mkNode_fst_re, EExpr.reOf, joinBar,
      CARDINALITY.One_str, String.append_empty]
  · simp [Ezre.from_sequence, sortedKeys, sortStrings, Ezre.leavesOf, Ezre.mkNode_fst_re,
      EExpr.reOf, joinBar, CARDINALITY.One_str, String.append_empty]

theorem C10_singleton_or_unparenthesized_witness :
    (Ezre.from_sequence 7 ["a", "a"] Option.none Option.none).1.re = "a" ∧
    (Ezre.from_sequence 7 [] Option.none Option.none).1.re = "" :=
  C10_singleton_or_unparenthesized 7 ["a", "a"] "a" (by decide)
